import Mathlib

/-!
Verification of the taxonomy-navigator classification engine
(`src/taxonomy_navigator_engine.py`) against its design specification.

The Python engine is shallowly embedded here.  Python strings are modelled as
`List Char` (`PyStr`): the Lean `String` API is built on byte positions and does
not reduce inside the kernel, while `List Char` versions of `strip`, `lower`,
`split`, `startswith`, … are structurally recursive and fully computable, so
concrete runs of the engine can be checked by `decide`.

External effects are made explicit:
* the completion gateway is an oracle: each call site receives an
  `Except GatewayError PyStr`, `.error` modelling a raised exception and
  `.ok` the returned message content;
* the taxonomy file is a list of lines; a missing file is `Option.none`.
-/

namespace TaxonomyNavigator

/-- Python `str` modelled as a list of characters. -/
abbrev PyStr := List Char

/-- Python `str.strip()` : drop whitespace from both ends. -/
def pyStrip (s : PyStr) : PyStr :=
  ((s.dropWhile Char.isWhitespace).reverse.dropWhile Char.isWhitespace).reverse

/-- Python `str.lower()`. -/
def pyLower (s : PyStr) : PyStr := s.map Char.toLower

/-- Python `str.upper()`. -/
def pyUpper (s : PyStr) : PyStr := s.map Char.toUpper

/-- The hierarchy separator `" > "` of the taxonomy file format. -/
def hierarchySep : PyStr := " > ".toList

/-- Auxiliary for `pySplitSep`: accumulates the current (reversed) segment. -/
def splitSepAux : PyStr → PyStr → List PyStr
  | [], cur => [cur.reverse]
  | ' ' :: '>' :: ' ' :: rest, cur => cur.reverse :: splitSepAux rest []
  | c :: rest, cur => splitSepAux rest (c :: cur)

/-- Python `s.split(" > ")` : split on the three-character hierarchy separator,
left to right, non-overlapping. -/
def pySplitSep (s : PyStr) : List PyStr := splitSepAux s []

/-- Auxiliary for `pySplitLines`. -/
def splitLinesAux : PyStr → PyStr → List PyStr
  | [], cur => [cur.reverse]
  | '\n' :: rest, cur => cur.reverse :: splitLinesAux rest []
  | c :: rest, cur => splitLinesAux rest (c :: cur)

/-- Python `s.split('\n')`. -/
def pySplitLines (s : PyStr) : List PyStr := splitLinesAux s []

/-- Auxiliary for `pyContains`. -/
def pyContainsAux (small : PyStr) : PyStr → Bool
  | [] => small.isEmpty
  | c :: rest => small.isPrefixOf (c :: rest) || pyContainsAux small rest

/-- Python `small in big` : substring containment. -/
def pyContains (big small : PyStr) : Bool := pyContainsAux small big

/-- Auxiliary for `digitRuns`, carrying the (reversed) current run of digits. -/
def digitRunsAux : PyStr → PyStr → List PyStr
  | [], cur => if cur.isEmpty then [] else [cur.reverse]
  | c :: cs, cur =>
      if c.isDigit then digitRunsAux cs (c :: cur)
      else if cur.isEmpty then digitRunsAux cs []
      else cur.reverse :: digitRunsAux cs []

/-- Python `re.findall(r'\d+', s)` : the maximal runs of decimal digits of `s`,
in order. -/
def digitRuns (s : PyStr) : List PyStr := digitRunsAux s []

/-- Numeric value of a run of decimal digits. -/
def natOfDigits (run : PyStr) : Nat :=
  run.foldl (fun a c => 10 * a + (c.toNat - '0'.toNat)) 0

/-- Helper for `validDigitGroup`: after a digit, the remaining characters are
digits, with a single underscore allowed between two digits. -/
def validDigitGroupGo : PyStr → Bool
  | [] => true
  | c :: rest =>
      if c = '_' then
        match rest with
        | d :: rest2 => d.isDigit && validDigitGroupGo rest2
        | [] => false
      else c.isDigit && validDigitGroupGo rest

/-- Validity of the digit part of a Python integer literal: digits possibly
separated by single underscores, starting and ending with a digit. -/
def validDigitGroup : PyStr → Bool
  | [] => false
  | c :: rest => c.isDigit && validDigitGroupGo rest

/-- Optional leading sign of a Python integer literal. -/
def pyIntSign : PyStr → Int × PyStr
  | '-' :: r => (-1, r)
  | '+' :: r => (1, r)
  | r => (1, r)

/-- Python `int(s)` on an already-stripped string: optional sign followed by
digits (with optional single underscore separators); `none` models the
`ValueError` branch. -/
def pyInt? (s : PyStr) : Option Int :=
  let signAndRest := pyIntSign s
  if validDigitGroup signAndRest.2 then
    some (signAndRest.1 * (natOfDigits (signAndRest.2.filter (fun c => c ≠ '_')) : Int))
  else none

/-! ### Taxonomy index builder (`_build_taxonomy_tree`)

The Python method also assembles a nested dict tree, but every later use of the
index goes through `self.all_paths` / `self.leaf_markers`; only those two are
modelled.  For each non-blank line after the header the code marks it leaf iff
no *subsequent* line starts with the line followed by `" > "`. -/

/-- Core loop of `_build_taxonomy_tree`, running over the lines after the
header: returns `(all_paths, leaf_markers)`. -/
def buildAux : List PyStr → List PyStr × List Bool
  | [] => ([], [])
  | l :: rest =>
      let line := pyStrip l
      let tailResult := buildAux rest
      if line.isEmpty then tailResult
      else
        let isLeafNode := !(rest.any (fun s =>
          let subsequentLine := pyStrip s
          !subsequentLine.isEmpty && (line ++ hierarchySep).isPrefixOf subsequentLine))
        (line :: tailResult.1, isLeafNode :: tailResult.2)

/-- `_build_taxonomy_tree` applied to the file's lines: the first line is the
discarded header. -/
def build_taxonomy_tree (lines : List PyStr) : List PyStr × List Bool :=
  buildAux (lines.drop 1)

/-- The only construction failure the Python code produces: `open` raises
`FileNotFoundError` for a missing file and `_build_taxonomy_tree` re-raises it. -/
inductive TaxonomyBuildError
  | fileNotFound
deriving DecidableEq

/-- Index construction including the missing-file case: `none` models a file
that does not exist (Python `open` raises, the method re-raises); with the
file present the builder always succeeds. -/
def buildTaxonomy : Option (List PyStr) → Except TaxonomyBuildError (List PyStr × List Bool)
  | none => .error .fileNotFound
  | some lines => .ok (build_taxonomy_tree lines)

/-- Modelled from the spec (§3 LeafFlag), for comparison with the code's leaf
flags: a path is leaf iff no *later* path's text starts with this path's text
plus the separator. -/
def leafSpec : List PyStr → List Bool
  | [] => []
  | p :: rest =>
      (!(rest.any (fun q => (p ++ hierarchySep).isPrefixOf q))) :: leafSpec rest

/-! ### Completion gateway oracle -/

/-- A transport/API failure of one completion call (an exception raised by the
OpenAI client in Python). -/
inductive GatewayError
  | transport
deriving DecidableEq

/-- One response of the external completion gateway: either raised or returned
message content. -/
abbrev GatewayResponse := Except GatewayError PyStr

/-- The gateway's behaviour over one full classification request: one response
per call site (stage 2 performs one call per batch, hence the lists). -/
structure Oracle where
  summaryResp : GatewayResponse
  stage1Resp : GatewayResponse
  stage2aResps : List GatewayResponse
  stage2bResps : List GatewayResponse
  stage3Resp : GatewayResponse

/-! ### Summary stage (`generate_product_summary`) -/

/-- `generate_product_summary`: the model's output stripped, or on gateway
error the fallback truncation of the raw description. -/
def generate_product_summary (productInfo : PyStr) : GatewayResponse → PyStr
  | .ok content => pyStrip content
  | .error _ =>
      if 400 < productInfo.length then productInfo.take 400 ++ "...".toList
      else productInfo

/-! ### Stage 1 (`stage1_l1_selection` and `_validate_categories`) -/

/-- The unique L1 categories of the leaf-marked paths, in file order
(the extraction loop at the top of `stage1_l1_selection`). -/
def l1CategoriesAux : List (PyStr × Bool) → List PyStr → List PyStr
  | [], acc => acc
  | (path, isLeaf) :: rest, acc =>
      if isLeaf then
        let l1 := (pySplitSep path).headD []
        if l1 ∈ acc then l1CategoriesAux rest acc
        else l1CategoriesAux rest (acc ++ [l1])
      else l1CategoriesAux rest acc

/-- The canonical L1 list computed by Stage 1. -/
def l1Categories (paths : List PyStr) (flags : List Bool) : List PyStr :=
  l1CategoriesAux (paths.zip flags) []

/-- Parsing of the Stage-1 response body:
`[category.strip() for category in content.split('\n') if category.strip()]`
(after the initial `content.strip()`). -/
def stage1ParsedLines (content : PyStr) : List PyStr :=
  ((pySplitLines (pyStrip content)).map pyStrip).filter (fun line => !line.isEmpty)

/-- Case-insensitive order-preserving deduplication of Stage 1 (`seen` holds
the lowercased forms already emitted). -/
def dedupCaseInsensitiveAux : List PyStr → List PyStr → List PyStr
  | [], _ => []
  | category :: rest, seen =>
      if pyLower category ∈ seen then dedupCaseInsensitiveAux rest seen
      else category :: dedupCaseInsensitiveAux rest (pyLower category :: seen)

/-- Loop of `_validate_categories`: exact case-insensitive match first, then
substring containment either way, otherwise the value is kept as-is;
`seenValid` holds lowercased forms to block duplicates. -/
def validateCategoriesAux (availableCategories : List PyStr) :
    List PyStr → List PyStr → List PyStr
  | [], _ => []
  | selected :: rest, seenValid =>
      let matching := availableCategories.filter
        (fun c => decide (pyLower c = pyLower selected))
      match matching with
      | matched :: _ =>
          if pyLower matched ∈ seenValid then
            validateCategoriesAux availableCategories rest seenValid
          else matched :: validateCategoriesAux availableCategories rest
            (pyLower matched :: seenValid)
      | [] =>
          match availableCategories.find? (fun c =>
              pyContains (pyLower selected) (pyLower c) ||
              pyContains (pyLower c) (pyLower selected)) with
          | some c =>
              if pyLower c ∈ seenValid then
                validateCategoriesAux availableCategories rest seenValid
              else c :: validateCategoriesAux availableCategories rest
                (pyLower c :: seenValid)
          | none =>
              if pyLower selected ∈ seenValid then
                validateCategoriesAux availableCategories rest seenValid
              else selected :: validateCategoriesAux availableCategories rest
                (pyLower selected :: seenValid)

/-- `_validate_categories`. -/
def validate_categories (selectedCategories availableCategories : List PyStr) : List PyStr :=
  validateCategoriesAux availableCategories selectedCategories []

/-- `stage1_l1_selection`: strict (case-sensitive) validation of each response
line against the canonical L1 list, case-insensitive dedup, cap at 2, then
`_validate_categories`; on a gateway exception, fall back to the first two
canonical L1 entries. -/
def stage1_l1_selection (paths : List PyStr) (flags : List Bool)
    (resp : GatewayResponse) : List PyStr :=
  let l1_categories := l1Categories paths flags
  if l1_categories.isEmpty then []
  else
    match resp with
    | .error _ => l1_categories.take 2
    | .ok content =>
        let selected_categories := stage1ParsedLines content
        let validated_categories :=
          selected_categories.filter (fun category => decide (category ∈ l1_categories))
        let unique_categories := (dedupCaseInsensitiveAux validated_categories []).take 2
        validate_categories unique_categories l1_categories

/-- The post-parse validation pipeline of Stage 1 applied to a given list of
response lines (the body of `stage1_l1_selection` after `content` is split
into lines): strict membership filter, case-insensitive dedup, cap at 2,
`_validate_categories`. -/
def stage1ValidateLines (l1_categories : List PyStr)
    (selected_categories : List PyStr) : List PyStr :=
  let validated_categories :=
    selected_categories.filter (fun category => decide (category ∈ l1_categories))
  let unique_categories := (dedupCaseInsensitiveAux validated_categories []).take 2
  validate_categories unique_categories l1_categories

/-! ### Stage 2 (`_leaf_selection_helper`) -/

/-- The batch size of stage 2 (`batch_size = 100`). -/
def batchSize : Nat := 100

/-- The leaf names of the leaf-marked paths whose L1 is among `selectedL1s`
and which are not excluded (the filtering loop of `_leaf_selection_helper`). -/
def filteredLeaves (paths : List PyStr) (flags : List Bool)
    (selectedL1s excludedLeaves : List PyStr) : List PyStr :=
  (paths.zip flags).filterMap fun pf =>
    if pf.2 then
      let parts := pySplitSep pf.1
      let leaf := parts.getLastD []
      let l1_category := parts.headD []
      if l1_category ∈ selectedL1s ∧ leaf ∉ excludedLeaves then some leaf else none
    else none

/-- Splitting into consecutive chunks of `batchSize`: `cur` is the (reversed)
chunk being filled, `rem` its remaining capacity
(`range(0, len(filtered_leaves), batch_size)` slicing). -/
def chunksAux : List PyStr → List PyStr → Nat → List (List PyStr)
  | [], cur, _ => if cur.isEmpty then [] else [cur.reverse]
  | x :: xs, cur, 0 => cur.reverse :: chunksAux xs [x] (batchSize - 1)
  | x :: xs, cur, rem + 1 => chunksAux xs (x :: cur) rem

/-- The batches `filtered_leaves[k*100:(k+1)*100]` in order. -/
def batchChunks (filteredLeaves : List PyStr) : List (List PyStr) :=
  chunksAux filteredLeaves [] batchSize

/-- Parsing of one batch response: unless the stripped content upper-cases to
`"NONE"`, every digit run on every line is read and kept when it lies in
`[1, batchLen]`. -/
def parseBatchResponse (content : PyStr) (batchLen : Nat) : List Nat :=
  let c := pyStrip content
  if pyUpper c = "NONE".toList then []
  else
    (((pySplitLines c).map pyStrip).filter (fun line => !line.isEmpty)).flatMap
      (fun line => ((digitRuns line).map natOfDigits).filter
        (fun num => decide (1 ≤ num ∧ num ≤ batchLen)))

/-- The per-batch loop of `_leaf_selection_helper`: each batch consumes one
gateway response; an exception (or a missing response) skips the batch, it
never aborts the branch.  Valid numbers are mapped back through the
batch-local numbering (`leaf_mapping[num] = batch[num-1]`). -/
def batchSelections : List (List PyStr) → List GatewayResponse → List PyStr
  | [], _ => []
  | _ :: rest, [] => batchSelections rest []
  | batch :: rest, r :: rs =>
      (match r with
        | .error _ => []
        | .ok content =>
            (parseBatchResponse content batch.length).map
              (fun num => batch.getD (num - 1) [])) ++ batchSelections rest rs

/-- Final stable deduplication of `_leaf_selection_helper` (`seen` set plus
ordered `unique_leaves` list: keeps the first occurrence). -/
def dedupFirstAux : List PyStr → List PyStr → List PyStr
  | [], _ => []
  | leaf :: rest, seen =>
      if leaf ∈ seen then dedupFirstAux rest seen
      else leaf :: dedupFirstAux rest (leaf :: seen)

/-- Order-preserving first-occurrence deduplication. -/
def dedupFirst (leaves : List PyStr) : List PyStr := dedupFirstAux leaves []

/-- `_leaf_selection_helper`. -/
def leaf_selection_helper (paths : List PyStr) (flags : List Bool)
    (selectedL1s excludedLeaves : List PyStr) (responses : List GatewayResponse) :
    List PyStr :=
  let filtered_leaves := filteredLeaves paths flags selectedL1s excludedLeaves
  if filtered_leaves.isEmpty then []
  else dedupFirst (batchSelections (batchChunks filtered_leaves) responses)

/-- `stage2a_first_leaf_selection`: first chosen L1, no exclusions. -/
def stage2a_first_leaf_selection (paths : List PyStr) (flags : List Bool)
    (selectedL1s : List PyStr) (responses : List GatewayResponse) : List PyStr :=
  match selectedL1s with
  | [] => []
  | l1 :: _ => leaf_selection_helper paths flags [l1] [] responses

/-- `stage2b_second_leaf_selection`: second chosen L1, excluding the leaves
already selected in Stage 2A; skipped when fewer than 2 L1s were selected. -/
def stage2b_second_leaf_selection (paths : List PyStr) (flags : List Bool)
    (selectedL1s excludedLeaves : List PyStr) (responses : List GatewayResponse) :
    List PyStr :=
  if selectedL1s.length < 2 then []
  else leaf_selection_helper paths flags [selectedL1s.getD 1 []] excludedLeaves responses

/-! ### Stage 3 (`stage3_final_selection` and `_parse_and_validate_number`) -/

/-- `cleaned_result = response.content.strip().strip().lower()` (the content is
stripped once at extraction and once more before lowering). -/
def pyCleaned (content : PyStr) : PyStr := pyLower (pyStrip (pyStrip content))

/-- The `meaningless_responses` list of `_parse_and_validate_number`. -/
def meaninglessResponses : List PyStr :=
  ["none".toList, "null".toList, "error".toList, "fail".toList,
   "false".toList, "n/a".toList, "na".toList, "unknown".toList]

/-- Last step of `_parse_and_validate_number`: a known meaningless response is
a complete failure (`-1`); anything else defaults to the first option (`0`). -/
def parseMeaningless (cleaned : PyStr) : Int :=
  if cleaned ∈ meaninglessResponses then -1 else 0

/-- Direct `int(cleaned_result)` attempt of `_parse_and_validate_number`,
accepted only in `[1, maxOptions]`; otherwise fall through to the meaningless
check. -/
def parseFallback (cleaned : PyStr) (maxOptions : Nat) : Int :=
  match pyInt? cleaned with
  | some directNumber =>
      if 1 ≤ directNumber ∧ directNumber ≤ (maxOptions : Int) then directNumber - 1
      else parseMeaningless cleaned
  | none => parseMeaningless cleaned

/-- `_parse_and_validate_number`: first integer found anywhere in the cleaned
response, accepted as 0-based index when in `[1, maxOptions]`; then the direct
parse; then the meaningless check; else default `0`.  Empty input is `-1`. -/
def parse_and_validate_number (content : PyStr) (maxOptions : Nat) : Int :=
  let cleaned := pyCleaned content
  if cleaned.isEmpty then -1
  else
    match (digitRuns cleaned).map natOfDigits with
    | selectedNumber :: _ =>
        if 1 ≤ selectedNumber ∧ selectedNumber ≤ maxOptions then (selectedNumber : Int) - 1
        else parseFallback cleaned maxOptions
    | [] => parseFallback cleaned maxOptions

/-- `stage3_final_selection`: `-1` without candidates, index 0 when a single
candidate skips the call, otherwise the parsed and validated response
(a gateway exception yields `-1`). -/
def stage3_final_selection (selectedLeaves : List PyStr)
    (resp : GatewayResponse) : Int :=
  if selectedLeaves.isEmpty then -1
  else if selectedLeaves.length = 1 then 0
  else
    match resp with
    | .error _ => -1
    | .ok content =>
        let selectedIndex := parse_and_validate_number content selectedLeaves.length
        if 0 ≤ selectedIndex then selectedIndex else -1

/-! ### Path resolution and the orchestrator (`navigate_taxonomy`) -/

/-- The failure sentinel path component `"False"`. -/
def falseSentinel : PyStr := "False".toList

/-- The leaf-to-full-path scan of `navigate_taxonomy`: leaf-marked paths that
end with the chosen leaf name *and* whose final segment equals it exactly,
split into their segments. -/
def fullPathsForLeaf (paths : List PyStr) (flags : List Bool)
    (selectedLeaf : PyStr) : List (List PyStr) :=
  (paths.zip flags).filterMap fun pf =>
    if pf.2 && selectedLeaf.isSuffixOf pf.1 then
      let path_parts := pySplitSep pf.1
      if path_parts.getLastD [] = selectedLeaf then some path_parts else none
    else none

/-- Terminal conversion of the selected index: the leaf lookup
`all_selected_leaves[best_match_idx]` (an out-of-range index would raise and
be caught by the outer handler, yielding the sentinel) followed by the path
scan; `full_paths[:1]` of a non-empty list is its first element alone. -/
def resolveSelection (paths : List PyStr) (flags : List Bool)
    (allSelectedLeaves : List PyStr) (idx : Nat) : List (List PyStr) × Nat :=
  match allSelectedLeaves.get? idx with
  | none => ([[falseSentinel]], 0)
  | some selectedLeaf =>
      match fullPathsForLeaf paths flags selectedLeaf with
      | [] => ([[falseSentinel]], 0)
      | fp :: _ => ([fp], 0)

/-- The Stage-2 merge of `navigate_taxonomy`: branch 2A first, then (only when
two L1s were selected) branch 2B with the 2A results excluded, concatenated. -/
def stage2merged (paths : List PyStr) (flags : List Bool) (o : Oracle) : List PyStr :=
  let selected_l1s := stage1_l1_selection paths flags o.stage1Resp
  let selected_leaves_2a :=
    stage2a_first_leaf_selection paths flags selected_l1s o.stage2aResps
  let selected_leaves_2b :=
    if 2 ≤ selected_l1s.length then
      stage2b_second_leaf_selection paths flags selected_l1s selected_leaves_2a
        o.stage2bResps
    else []
  selected_leaves_2a ++ selected_leaves_2b

/-- `navigate_taxonomy`: the full pipeline.  Every failure branch returns the
sentinel `([["False"]], 0)`; the outer `try/except` of the Python method means
no exception escapes, which the embedding reflects by being a total function of
the oracle. -/
def navigate_taxonomy (paths : List PyStr) (flags : List Bool) (o : Oracle)
    (productInfo : PyStr) : List (List PyStr) × Nat :=
  let _product_summary := generate_product_summary productInfo o.summaryResp
  let selected_l1s := stage1_l1_selection paths flags o.stage1Resp
  if selected_l1s.isEmpty then ([[falseSentinel]], 0)
  else
    let all_selected_leaves := stage2merged paths flags o
    if all_selected_leaves.isEmpty then ([[falseSentinel]], 0)
    else
      if all_selected_leaves.length = 1 then
        resolveSelection paths flags all_selected_leaves 0
      else
        let best_match_idx := stage3_final_selection all_selected_leaves o.stage3Resp
        if best_match_idx < 0 then ([[falseSentinel]], 0)
        else resolveSelection paths flags all_selected_leaves best_match_idx.toNat

/-- The leaf-marked paths of the index (serialized form). -/
def leafPaths (paths : List PyStr) (flags : List Bool) : List PyStr :=
  (paths.zip flags).filterMap fun pf => if pf.2 then some pf.1 else none

/-! ### Helper lemmas -/

theorem mem_dedupFirstAux {a : PyStr} :
    ∀ {xs seen : List PyStr}, a ∈ dedupFirstAux xs seen ↔ a ∈ xs ∧ a ∉ seen := by
  intro xs
  induction xs with
  | nil => intro seen; simp [dedupFirstAux]
  | cons x rest ih =>
      intro seen
      by_cases hx : x ∈ seen
      · simp only [dedupFirstAux, if_pos hx, ih]
        constructor
        · rintro ⟨hmem, hseen⟩
          exact ⟨List.mem_cons_of_mem _ hmem, hseen⟩
        · rintro ⟨hmem, hseen⟩
          rcases List.mem_cons.mp hmem with rfl | hmem'
          · exact absurd hx hseen
          · exact ⟨hmem', hseen⟩
      · simp only [dedupFirstAux, if_neg hx]
        constructor
        · intro hmem
          rcases List.mem_cons.mp hmem with rfl | hmem'
          · exact ⟨List.mem_cons_self _ _, hx⟩
          · obtain ⟨h1, h2⟩ := ih.mp hmem'
            exact ⟨List.mem_cons_of_mem _ h1, fun hs => h2 (List.mem_cons_of_mem _ hs)⟩
        · rintro ⟨hmem, hseen⟩
          rcases List.mem_cons.mp hmem with rfl | hmem'
          · exact List.mem_cons_self _ _
          · by_cases hax : a = x
            · subst hax; exact List.mem_cons_self _ _
            · refine List.mem_cons_of_mem _ (ih.mpr ⟨hmem', fun hs => ?_⟩)
              rcases List.mem_cons.mp hs with h' | h'
              · exact hax h'
              · exact hseen h'

theorem dedupFirstAux_nodup : ∀ (xs seen : List PyStr), (dedupFirstAux xs seen).Nodup := by
  intro xs
  induction xs with
  | nil => intro seen; simp [dedupFirstAux]
  | cons x rest ih =>
      intro seen
      by_cases hx : x ∈ seen
      · simpa [dedupFirstAux, if_pos hx] using ih seen
      · simp only [dedupFirstAux, if_neg hx, List.nodup_cons]
        refine ⟨fun hmem => ?_, ih _⟩
        exact (mem_dedupFirstAux.mp hmem).2 (List.mem_cons_self _ _)

theorem dedupFirstAux_sublist : ∀ (xs seen : List PyStr), (dedupFirstAux xs seen).Sublist xs := by
  intro xs
  induction xs with
  | nil => intro seen; simp [dedupFirstAux]
  | cons x rest ih =>
      intro seen
      by_cases hx : x ∈ seen
      · exact (by simpa [dedupFirstAux, if_pos hx] using (ih seen).trans (List.sublist_cons_self x rest))
      · simpa [dedupFirstAux, if_neg hx] using (ih (x :: seen)).cons₂ x

theorem dedupFirst_nodup (xs : List PyStr) : (dedupFirst xs).Nodup :=
  dedupFirstAux_nodup xs []

theorem dedupFirst_sublist (xs : List PyStr) : (dedupFirst xs).Sublist xs :=
  dedupFirstAux_sublist xs []

theorem mem_dedupFirst {a : PyStr} {xs : List PyStr} : a ∈ dedupFirst xs ↔ a ∈ xs := by
  simp [dedupFirst, mem_dedupFirstAux]

theorem chunksAux_flatten : ∀ (xs cur : List PyStr) (rem : Nat),
    (chunksAux xs cur rem).flatten = cur.reverse ++ xs := by
  intro xs
  induction xs with
  | nil =>
      intro cur rem
      by_cases h : cur.isEmpty
      · simp_all [chunksAux, List.isEmpty_iff]
      · simp [chunksAux, h]
  | cons x rest ih =>
      intro cur rem
      cases rem with
      | zero => simp [chunksAux, ih]
      | succ rem => simp [chunksAux, ih]

theorem batchChunks_flatten (fl : List PyStr) : (batchChunks fl).flatten = fl := by
  simpa using chunksAux_flatten fl [] batchSize

theorem mem_of_mem_batchChunks {a : PyStr} {b : List PyStr} {fl : List PyStr}
    (hb : b ∈ batchChunks fl) (ha : a ∈ b) : a ∈ fl := by
  have : a ∈ (batchChunks fl).flatten := List.mem_flatten.mpr ⟨b, hb, ha⟩
  simpa [batchChunks_flatten] using this

theorem getD_mem : ∀ (l : List PyStr) (n : Nat), n < l.length → l.getD n [] ∈ l := by
  intro l
  induction l with
  | nil => intro n h; simp at h
  | cons x rest ih =>
      intro n h
      cases n with
      | zero => simp
      | succ n =>
          simp only [List.getD_cons_succ]
          exact List.mem_cons_of_mem _ (ih n (by simpa using h))

theorem mem_parseBatchResponse {num : Nat} {content : PyStr} {batchLen : Nat}
    (h : num ∈ parseBatchResponse content batchLen) : 1 ≤ num ∧ num ≤ batchLen := by
  simp only [parseBatchResponse] at h
  split at h
  · simp at h
  · obtain ⟨line, -, hline⟩ := List.mem_flatMap.mp h
    exact of_decide_eq_true (List.mem_filter.mp hline).2

theorem mem_batchSelections {a : PyStr} :
    ∀ {batches : List (List PyStr)} {rs : List GatewayResponse},
      a ∈ batchSelections batches rs → ∃ b ∈ batches, a ∈ b := by
  intro batches
  induction batches with
  | nil => intro rs h; simp [batchSelections] at h
  | cons batch rest ih =>
      intro rs h
      match rs with
      | [] =>
          obtain ⟨b, hb, hab⟩ :=
            ih (show a ∈ batchSelections rest [] by simpa [batchSelections] using h)
          exact ⟨b, List.mem_cons_of_mem _ hb, hab⟩
      | r :: rs' =>
          simp only [batchSelections, List.mem_append] at h
          rcases h with h | h
          · match r with
            | .error _ => simp at h
            | .ok content =>
                obtain ⟨num, hnum, rfl⟩ := List.mem_map.mp h
                have hrange := mem_parseBatchResponse hnum
                exact ⟨batch, List.mem_cons_self _ _,
                  getD_mem _ _ (by omega)⟩
          · obtain ⟨b, hb, hab⟩ := ih h
            exact ⟨b, List.mem_cons_of_mem _ hb, hab⟩

theorem mem_filteredLeaves_not_excluded {a : PyStr} {paths : List PyStr}
    {flags : List Bool} {selectedL1s excludedLeaves : List PyStr}
    (h : a ∈ filteredLeaves paths flags selectedL1s excludedLeaves) :
    a ∉ excludedLeaves := by
  simp only [filteredLeaves] at h
  obtain ⟨pf, -, hpf⟩ := List.mem_filterMap.mp h
  split at hpf
  · split at hpf
    · rename_i hcond
      obtain rfl := Option.some.inj hpf
      exact hcond.2
    · exact absurd hpf (by simp)
  · exact absurd hpf (by simp)

theorem mem_leaf_selection_helper {a : PyStr} {paths : List PyStr} {flags : List Bool}
    {selectedL1s excludedLeaves : List PyStr} {responses : List GatewayResponse}
    (h : a ∈ leaf_selection_helper paths flags selectedL1s excludedLeaves responses) :
    a ∈ filteredLeaves paths flags selectedL1s excludedLeaves := by
  simp only [leaf_selection_helper] at h
  split at h
  · simp at h
  · obtain ⟨b, hb, hab⟩ := mem_batchSelections (mem_dedupFirst.mp h)
    exact mem_of_mem_batchChunks hb hab

theorem leaf_selection_helper_nodup (paths : List PyStr) (flags : List Bool)
    (selectedL1s excludedLeaves : List PyStr) (responses : List GatewayResponse) :
    (leaf_selection_helper paths flags selectedL1s excludedLeaves responses).Nodup := by
  simp only [leaf_selection_helper]
  split
  · simp
  · exact dedupFirst_nodup _

theorem stage2a_nodup (paths : List PyStr) (flags : List Bool)
    (selectedL1s : List PyStr) (responses : List GatewayResponse) :
    (stage2a_first_leaf_selection paths flags selectedL1s responses).Nodup := by
  cases selectedL1s with
  | nil => simp [stage2a_first_leaf_selection]
  | cons l1 rest => exact leaf_selection_helper_nodup _ _ _ _ _

theorem stage2b_nodup (paths : List PyStr) (flags : List Bool)
    (selectedL1s excludedLeaves : List PyStr) (responses : List GatewayResponse) :
    (stage2b_second_leaf_selection paths flags selectedL1s excludedLeaves responses).Nodup := by
  simp only [stage2b_second_leaf_selection]
  split
  · simp
  · exact leaf_selection_helper_nodup _ _ _ _ _

theorem mem_stage2b_not_excluded {a : PyStr} {paths : List PyStr} {flags : List Bool}
    {selectedL1s excludedLeaves : List PyStr} {responses : List GatewayResponse}
    (h : a ∈ stage2b_second_leaf_selection paths flags selectedL1s excludedLeaves responses) :
    a ∉ excludedLeaves := by
  simp only [stage2b_second_leaf_selection] at h
  split at h
  · simp at h
  · exact mem_filteredLeaves_not_excluded (mem_leaf_selection_helper h)

theorem stage2merged_nodup (paths : List PyStr) (flags : List Bool) (o : Oracle) :
    (stage2merged paths flags o).Nodup := by
  simp only [stage2merged]
  refine List.Nodup.append (stage2a_nodup _ _ _ _) ?_ ?_
  · split
    · exact stage2b_nodup _ _ _ _ _
    · simp
  · intro a ha hb
    split at hb
    · exact mem_stage2b_not_excluded hb ha
    · simp at hb

theorem stage2merged_nil_of_stage1_nil {paths : List PyStr} {flags : List Bool}
    {o : Oracle} (h : stage1_l1_selection paths flags o.stage1Resp = []) :
    stage2merged paths flags o = [] := by
  simp [stage2merged, h, stage2a_first_leaf_selection]

theorem validateCategoriesAux_subset (availableCategories : List PyStr) :
    ∀ (sel seen : List PyStr), (∀ s ∈ sel, s ∈ availableCategories) →
      ∀ a ∈ validateCategoriesAux availableCategories sel seen, a ∈ availableCategories := by
  intro sel
  induction sel with
  | nil => intro seen _ a ha; simp [validateCategoriesAux] at ha
  | cons s rest ih =>
      intro seen hsub a ha
      have hs : s ∈ availableCategories := hsub s (List.mem_cons_self _ _)
      have hrest : ∀ x ∈ rest, x ∈ availableCategories :=
        fun x hx => hsub x (List.mem_cons_of_mem _ hx)
      simp only [validateCategoriesAux] at ha
      split at ha
      · rename_i matched tail hmatch
        have hmm : matched ∈ availableCategories := by
          have : matched ∈ availableCategories.filter
              (fun c => decide (pyLower c = pyLower s)) := by
            rw [hmatch]; exact List.mem_cons_self _ _
          exact (List.mem_filter.mp this).1
        split at ha
        · exact ih seen hrest a ha
        · rcases List.mem_cons.mp ha with rfl | ha'
          · exact hmm
          · exact ih _ hrest a ha'
      · rename_i hmatch
        have hsf : s ∈ List.filter (fun c => decide (pyLower c = pyLower s))
            availableCategories := List.mem_filter.mpr ⟨hs, by simp⟩
        rw [hmatch] at hsf
        simp at hsf

theorem mem_dedupCaseInsensitiveAux {a : PyStr} :
    ∀ {xs seen : List PyStr}, a ∈ dedupCaseInsensitiveAux xs seen → a ∈ xs := by
  intro xs
  induction xs with
  | nil => intro seen h; simp [dedupCaseInsensitiveAux] at h
  | cons x rest ih =>
      intro seen h
      simp only [dedupCaseInsensitiveAux] at h
      split at h
      · exact List.mem_cons_of_mem _ (ih h)
      · rcases List.mem_cons.mp h with rfl | h'
        · exact List.mem_cons_self _ _
        · exact List.mem_cons_of_mem _ (ih h')

theorem mem_stage1_ok_subset {paths : List PyStr} {flags : List Bool}
    {content : PyStr} {a : PyStr}
    (h : a ∈ stage1_l1_selection paths flags (.ok content)) :
    a ∈ l1Categories paths flags := by
  simp only [stage1_l1_selection] at h
  split at h
  · simp at h
  · refine validateCategoriesAux_subset _ _ _ ?_ a h
    intro s hs
    have hs' := mem_dedupCaseInsensitiveAux (List.take_subset _ _ hs)
    have := List.mem_filter.mp hs'
    exact of_decide_eq_true this.2

theorem stage1_ok_all_invalid {paths : List PyStr} {flags : List Bool} {content : PyStr}
    (h : ∀ line ∈ stage1ParsedLines content, line ∉ l1Categories paths flags) :
    stage1_l1_selection paths flags (.ok content) = [] := by
  simp only [stage1_l1_selection]
  split
  · rfl
  · have hfil : (stage1ParsedLines content).filter
        (fun category => decide (category ∈ l1Categories paths flags)) = [] := by
      rw [List.filter_eq_nil_iff]
      intro c hc
      simpa using h c hc
    rw [hfil]
    rfl

theorem stage1_error_fallback {paths : List PyStr} {flags : List Bool}
    (e : GatewayError) (h : l1Categories paths flags ≠ []) :
    stage1_l1_selection paths flags (.error e) = (l1Categories paths flags).take 2 := by
  simp only [stage1_l1_selection]
  rw [if_neg (by simpa [List.isEmpty_iff] using h)]

theorem mem_fullPathsForLeaf {paths : List PyStr} {flags : List Bool}
    {selectedLeaf : PyStr} {parts : List PyStr}
    (h : parts ∈ fullPathsForLeaf paths flags selectedLeaf) :
    ∃ p ∈ leafPaths paths flags, parts = pySplitSep p ∧ parts.getLastD [] = selectedLeaf := by
  simp only [fullPathsForLeaf] at h
  obtain ⟨pf, hmem, hpf⟩ := List.mem_filterMap.mp h
  split at hpf
  · rename_i hcond
    split at hpf
    · rename_i hlast
      obtain rfl := Option.some.inj hpf
      obtain ⟨h2, -⟩ := (Bool.and_eq_true _ _).mp hcond
      refine ⟨pf.1, ?_, rfl, hlast⟩
      simp only [leafPaths]
      exact List.mem_filterMap.mpr ⟨pf, hmem, by simp [h2]⟩
    · exact absurd hpf (by simp)
  · exact absurd hpf (by simp)

theorem resolveSelection_shape (paths : List PyStr) (flags : List Bool)
    (allSelectedLeaves : List PyStr) (idx : Nat) :
    resolveSelection paths flags allSelectedLeaves idx = ([[falseSentinel]], 0) ∨
    ∃ p ∈ leafPaths paths flags,
      resolveSelection paths flags allSelectedLeaves idx = ([pySplitSep p], 0) := by
  simp only [resolveSelection]
  split
  · exact Or.inl rfl
  · rename_i x selectedLeaf hget
    split
    · exact Or.inl rfl
    · rename_i fp tail heq
      right
      have hfp : fp ∈ fullPathsForLeaf paths flags selectedLeaf := by
        rw [heq]; exact List.mem_cons_self _ _
      obtain ⟨p, hp, rfl, -⟩ := mem_fullPathsForLeaf hfp
      exact ⟨p, hp, rfl⟩

theorem navigate_shape (paths : List PyStr) (flags : List Bool) (o : Oracle)
    (productInfo : PyStr) :
    navigate_taxonomy paths flags o productInfo = ([[falseSentinel]], 0) ∨
    ∃ p ∈ leafPaths paths flags,
      navigate_taxonomy paths flags o productInfo = ([pySplitSep p], 0) := by
  simp only [navigate_taxonomy]
  split
  · exact Or.inl rfl
  · split
    · exact Or.inl rfl
    · split
      · exact resolveSelection_shape _ _ _ _
      · split
        · exact Or.inl rfl
        · exact resolveSelection_shape _ _ _ _

theorem buildAux_any_eq (pat : PyStr) : ∀ ls : List PyStr,
    ((buildAux ls).1.any (fun t => pat.isPrefixOf t)) =
      ls.any (fun s => !(pyStrip s).isEmpty && pat.isPrefixOf (pyStrip s)) := by
  intro ls
  induction ls with
  | nil => simp [buildAux]
  | cons l rest ih =>
      by_cases h : (pyStrip l).isEmpty
      · simp [buildAux, h, ih]
      · simp [buildAux, h, ih]

theorem buildAux_leafFlags : ∀ ls : List PyStr, (buildAux ls).2 = leafSpec (buildAux ls).1 := by
  intro ls
  induction ls with
  | nil => simp [buildAux, leafSpec]
  | cons l rest ih =>
      by_cases h : (pyStrip l).isEmpty
      · simp [buildAux, h, ih]
      · have hany := buildAux_any_eq (pyStrip l ++ hierarchySep) rest
        simp [buildAux, h, leafSpec, ih, hany]

theorem digitRunsAux_eq_nil {cs : PyStr} (h : ∀ c ∈ cs, c.isDigit = false) :
    digitRunsAux cs [] = [] := by
  induction cs with
  | nil => rfl
  | cons c rest ih =>
      have hc := h c (List.mem_cons_self _ _)
      simp [digitRunsAux, hc, ih (fun x hx => h x (List.mem_cons_of_mem _ hx))]

theorem validDigitGroup_eq_false {s : PyStr} (h : ∀ c ∈ s, c.isDigit = false) :
    validDigitGroup s = false := by
  cases s with
  | nil => rfl
  | cons c rest => simp [validDigitGroup, h c (List.mem_cons_self _ _)]

theorem mem_pyIntSign_snd {s : PyStr} {c : Char} (h : c ∈ (pyIntSign s).2) : c ∈ s := by
  unfold pyIntSign at h
  split at h
  · exact List.mem_cons_of_mem _ h
  · exact List.mem_cons_of_mem _ h
  · exact h

theorem pyInt_eq_none {s : PyStr} (h : ∀ c ∈ s, c.isDigit = false) : pyInt? s = none := by
  have hv : validDigitGroup (pyIntSign s).2 = false :=
    validDigitGroup_eq_false (fun c hc => h c (mem_pyIntSign_snd hc))
  simp [pyInt?, hv]

theorem parse_of_digitRuns_head {content : PyStr} {n : Nat} {rest : List Nat}
    {maxOptions : Nat}
    (h : (digitRuns (pyCleaned content)).map natOfDigits = n :: rest) :
    parse_and_validate_number content maxOptions =
      if 1 ≤ n ∧ n ≤ maxOptions then (n : Int) - 1
      else parseFallback (pyCleaned content) maxOptions := by
  have hne : ¬((pyCleaned content).isEmpty = true) := by
    intro hempty
    rw [List.isEmpty_iff] at hempty
    rw [hempty] at h
    simp [digitRuns, digitRunsAux] at h
  simp only [parse_and_validate_number]
  rw [if_neg hne, h]

theorem parse_no_digits {content : PyStr} {maxOptions : Nat}
    (hne : pyCleaned content ≠ [])
    (hnd : ∀ c ∈ pyCleaned content, c.isDigit = false)
    (hnm : pyCleaned content ∉ meaninglessResponses) :
    parse_and_validate_number content maxOptions = 0 := by
  have hruns : digitRuns (pyCleaned content) = [] := digitRunsAux_eq_nil hnd
  have hint : pyInt? (pyCleaned content) = none := pyInt_eq_none hnd
  simp only [parse_and_validate_number]
  rw [if_neg (by simpa [List.isEmpty_iff] using hne), hruns]
  simp [parseFallback, hint, parseMeaningless, hnm]

/-- The explicit non-answer tokens named by the specification (a subset of the
code's `meaningless_responses`, plus the empty response). -/
def specHardTokens : List PyStr :=
  [[], "none".toList, "error".toList, "false".toList, "n/a".toList, "unknown".toList]

theorem parse_eval_nodigit_meaningless {tok : PyStr} {content : PyStr} {maxOptions : Nat}
    (h : pyCleaned content = tok) (hne : tok ≠ [])
    (hnd : ∀ c ∈ tok, c.isDigit = false) (hm : tok ∈ meaninglessResponses) :
    parse_and_validate_number content maxOptions = -1 := by
  have hruns : digitRuns tok = [] := digitRunsAux_eq_nil hnd
  have hint : pyInt? tok = none := pyInt_eq_none hnd
  simp only [parse_and_validate_number, h]
  rw [if_neg (by simpa [List.isEmpty_iff] using hne), hruns]
  simp [parseFallback, hint, parseMeaningless, hm]

theorem parse_hard_token {content : PyStr} {maxOptions : Nat}
    (h : pyCleaned content ∈ specHardTokens) :
    parse_and_validate_number content maxOptions = -1 := by
  simp only [specHardTokens, List.mem_cons, List.not_mem_nil, or_false] at h
  rcases h with h | h | h | h | h | h
  · simp [parse_and_validate_number, h]
  · exact parse_eval_nodigit_meaningless h (by decide) (by decide) (by decide)
  · exact parse_eval_nodigit_meaningless h (by decide) (by decide) (by decide)
  · exact parse_eval_nodigit_meaningless h (by decide) (by decide) (by decide)
  · exact parse_eval_nodigit_meaningless h (by decide) (by decide) (by decide)
  · exact parse_eval_nodigit_meaningless h (by decide) (by decide) (by decide)

theorem stage3_hard_token {selectedLeaves : List PyStr} {content : PyStr}
    (hlen : 2 ≤ selectedLeaves.length) (h : pyCleaned content ∈ specHardTokens) :
    stage3_final_selection selectedLeaves (.ok content) = -1 := by
  simp only [stage3_final_selection]
  rw [if_neg (by rw [List.isEmpty_iff]; intro hnil; rw [hnil] at hlen; simp at hlen),
    if_neg (by omega)]
  rw [parse_hard_token h]
  decide

theorem buildAux_all_blank : ∀ {ls : List PyStr},
    (∀ l ∈ ls, pyStrip l = []) → buildAux ls = ([], []) := by
  intro ls
  induction ls with
  | nil => intro _; rfl
  | cons l rest ih =>
      intro h
      have hl : (pyStrip l).isEmpty = true := by
        rw [h l (List.mem_cons_self _ _)]; rfl
      simp [buildAux, hl, ih (fun x hx => h x (List.mem_cons_of_mem _ hx))]

theorem leafSpec_getElem : ∀ (ps : List PyStr) (i : Nat) (p : PyStr), ps[i]? = some p →
    (leafSpec ps)[i]? =
      some (!((ps.drop (i + 1)).any (fun q => (p ++ hierarchySep).isPrefixOf q))) := by
  intro ps
  induction ps with
  | nil => intro i p h; simp at h
  | cons x rest ih =>
      intro i p h
      cases i with
      | zero =>
          obtain rfl : x = p := by simpa using h
          simp [leafSpec]
      | succ i =>
          simp only [List.getElem?_cons_succ] at h
          simpa [leafSpec] using ih i p h

theorem digitRunsAux_all_digits :
    ∀ (ds cur : PyStr), (∀ c ∈ ds, c.isDigit = true) → cur ≠ [] ∨ ds ≠ [] →
      digitRunsAux ds cur = [cur.reverse ++ ds] := by
  intro ds
  induction ds with
  | nil =>
      intro cur _ hne
      have hc : cur ≠ [] := by
        rcases hne with h | h
        · exact h
        · exact absurd rfl h
      simp [digitRunsAux, List.isEmpty_iff, hc]
  | cons c cs ih =>
      intro cur h _
      have hc := h c (List.mem_cons_self _ _)
      have hrest := fun x hx => h x (List.mem_cons_of_mem _ hx)
      rw [digitRunsAux, if_pos hc, ih (c :: cur) hrest (Or.inl (by simp))]
      simp

theorem digitRuns_all_digits {ds : PyStr} (hne : ds ≠ [])
    (h : ∀ c ∈ ds, c.isDigit = true) : digitRuns ds = [ds] := by
  simpa [digitRuns] using digitRunsAux_all_digits ds [] h (Or.inr hne)

theorem pyIntSign_digit {c : Char} {r : PyStr} (hc : c.isDigit = true) :
    pyIntSign (c :: r) = (1, c :: r) := by
  have h1 : c ≠ '-' := by intro h; rw [h] at hc; exact absurd hc (by decide)
  have h2 : c ≠ '+' := by intro h; rw [h] at hc; exact absurd hc (by decide)
  simp only [pyIntSign]
  split
  · rename_i heq
    injection heq with hc' _
    exact absurd hc' h1
  · rename_i heq
    injection heq with hc' _
    exact absurd hc' h2
  · rfl

theorem validDigitGroupGo_all_digits :
    ∀ (s : PyStr), (∀ c ∈ s, c.isDigit = true) → validDigitGroupGo s = true := by
  intro s
  induction s with
  | nil => intro _; rfl
  | cons c rest ih =>
      intro h
      have hc := h c (List.mem_cons_self _ _)
      have hu : c ≠ '_' := by intro hh; rw [hh] at hc; exact absurd hc (by decide)
      unfold validDigitGroupGo
      rw [if_neg hu, hc, ih (fun x hx => h x (List.mem_cons_of_mem _ hx))]
      rfl

theorem pyInt_all_digits {ds : PyStr} (hne : ds ≠ [])
    (h : ∀ c ∈ ds, c.isDigit = true) :
    pyInt? ds = some ((natOfDigits ds : Int)) := by
  cases hds : ds with
  | nil => exact absurd hds hne
  | cons c r =>
      have h' : ∀ x ∈ (c :: r : PyStr), x.isDigit = true := hds ▸ h
      have hsign : pyIntSign (c :: r) = (1, c :: r) :=
        pyIntSign_digit (h' c (List.mem_cons_self _ _))
      have hvd : validDigitGroup (c :: r) = true := by
        rw [validDigitGroup, h' c (List.mem_cons_self _ _),
          validDigitGroupGo_all_digits r (fun x hx => h' x (List.mem_cons_of_mem _ hx))]
        rfl
      have hfil : (c :: r : PyStr).filter (fun x => decide (x ≠ '_')) = c :: r := by
        rw [List.filter_eq_self]
        intro a ha
        have := h' a ha
        refine decide_eq_true (fun hh => ?_)
        rw [hh] at this
        exact absurd this (by decide)
      simp only [pyInt?, hsign]
      rw [if_pos hvd, hfil, one_mul]

theorem notMem_meaningless_of_digits {ds : PyStr}
    (h : ∀ c ∈ ds, c.isDigit = true) : ds ∉ meaninglessResponses := by
  intro hm
  simp only [meaninglessResponses, List.mem_cons, List.not_mem_nil, or_false] at hm
  rcases hm with hh | hh | hh | hh | hh | hh | hh | hh <;>
    · rw [hh] at h
      exact absurd (h _ (List.mem_cons_self _ _)) (by decide)

theorem parse_all_digits_out_of_range {content : PyStr} {maxOptions : Nat}
    (hne : pyCleaned content ≠ [])
    (hdig : ∀ c ∈ pyCleaned content, c.isDigit = true)
    (hout : ¬(1 ≤ natOfDigits (pyCleaned content) ∧
      natOfDigits (pyCleaned content) ≤ maxOptions)) :
    parse_and_validate_number content maxOptions = 0 := by
  have hmap : (digitRuns (pyCleaned content)).map natOfDigits =
      [natOfDigits (pyCleaned content)] := by
    rw [digitRuns_all_digits hne hdig]
    rfl
  rw [parse_of_digitRuns_head hmap, if_neg hout]
  have hint : pyInt? (pyCleaned content) = some ((natOfDigits (pyCleaned content) : Int)) :=
    pyInt_all_digits hne hdig
  simp only [parseFallback, hint]
  rw [if_neg (by omega)]
  simp [parseMeaningless, notMem_meaningless_of_digits hdig]

theorem stage1_ok_eq_validate_exact (paths : List PyStr) (flags : List Bool)
    (content : PyStr) :
    stage1_l1_selection paths flags (.ok content) =
      stage1ValidateLines (l1Categories paths flags)
        ((stage1ParsedLines content).filter
          (fun line => decide (line ∈ l1Categories paths flags))) := by
  have hidem : ((stage1ParsedLines content).filter
        (fun line => decide (line ∈ l1Categories paths flags))).filter
        (fun line => decide (line ∈ l1Categories paths flags)) =
      (stage1ParsedLines content).filter
        (fun line => decide (line ∈ l1Categories paths flags)) := by
    rw [List.filter_eq_self]
    intro a ha
    exact (List.mem_filter.mp ha).2
  simp only [stage1_l1_selection, stage1ValidateLines, hidem]
  split
  · rename_i hemp
    rw [List.isEmpty_iff] at hemp
    rw [hemp]
    simp [validate_categories, validateCategoriesAux, dedupCaseInsensitiveAux]
  · rfl

/-! ### The claims -/

/-- C1 counterexample: the index builder checks only *subsequent* lines, not
the whole file.  In a file whose descendant line `"A > B"` precedes its
ancestor line `"A"`, the path `"A"` is still marked leaf even though another
path of the file is its strict descendant, contradicting the claim's
"no path j, anywhere in the file". -/
theorem C1_counterexample :
    build_taxonomy_tree ["Category Header".toList, "A > B".toList, "A".toList] =
      (["A > B".toList, "A".toList], [true, true]) ∧
    ("A".toList ++ hierarchySep).isPrefixOf "A > B".toList = true := by
  exact ⟨by decide, by decide⟩

/-- C1 (amended): for every taxonomy file, the builder marks a path as leaf iff
no *later* path's text starts with that path's text plus the separator `" > "`:
the leaf flags equal `leafSpec` (the spec-side definition quantifying over
later paths only), and pointwise the flag of path `i` is the negation of an
occurrence of a strict descendant among the paths after position `i`. -/
theorem C1_leaf_marking (lines : List PyStr) :
    (build_taxonomy_tree lines).2 = leafSpec (build_taxonomy_tree lines).1 ∧
    ∀ (i : Nat) (p : PyStr), (build_taxonomy_tree lines).1[i]? = some p →
      (build_taxonomy_tree lines).2[i]? =
        some (!(((build_taxonomy_tree lines).1.drop (i + 1)).any
          (fun q => (p ++ hierarchySep).isPrefixOf q))) := by
  have h : (build_taxonomy_tree lines).2 = leafSpec (build_taxonomy_tree lines).1 :=
    buildAux_leafFlags (lines.drop 1)
  refine ⟨h, ?_⟩
  intro i p hp
  rw [h]
  exact leafSpec_getElem _ i p hp

/-- C1 witness: the pointwise leaf characterization at the spec's sibling
fixture, for the parent path `"Electronics"`. -/
theorem C1_witness :
    (build_taxonomy_tree ["Header".toList, "Electronics".toList,
        "Electronics > Computers".toList]).2[0]? =
      some (!(((build_taxonomy_tree ["Header".toList, "Electronics".toList,
          "Electronics > Computers".toList]).1.drop 1).any
        (fun q => ("Electronics".toList ++ hierarchySep).isPrefixOf q))) :=
  (C1_leaf_marking ["Header".toList, "Electronics".toList,
    "Electronics > Computers".toList]).2 0 "Electronics".toList (by decide)

/-- C2 counterexample: the taxonomy has an L1 category, the Stage-1 completion
call *succeeds*, validation yields zero valid categories — and Stage 1 returns
the empty list (no fallback to the first 2 L1 entries), after which the
pipeline aborts with the failure sentinel. -/
theorem C2_counterexample :
    l1Categories ["Electronics".toList] [true] ≠ [] ∧
    stage1_l1_selection ["Electronics".toList] [true] (.ok "Garbage".toList) = [] ∧
    navigate_taxonomy ["Electronics".toList] [true]
      ⟨.ok "s".toList, .ok "Garbage".toList, [], [], .ok "1".toList⟩ "p".toList =
      ([[falseSentinel]], 0) := by
  exact ⟨by decide, by decide, by decide⟩

/-- C2 (amended): the deterministic fallback to the first 2 canonical L1
entries applies only when the Stage-1 completion call *raises*; when the call
succeeds but validation yields zero valid L1 categories, Stage 1 returns the
empty list and the pipeline resolves to the failure sentinel instead of
continuing. -/
theorem C2_stage1_fallback_semantics (paths : List PyStr) (flags : List Bool) :
    (∀ e : GatewayError, l1Categories paths flags ≠ [] →
      stage1_l1_selection paths flags (.error e) = (l1Categories paths flags).take 2 ∧
      stage1_l1_selection paths flags (.error e) ≠ []) ∧
    (∀ content : PyStr,
      (∀ line ∈ stage1ParsedLines content, line ∉ l1Categories paths flags) →
      stage1_l1_selection paths flags (.ok content) = [] ∧
      ∀ (o : Oracle) (productInfo : PyStr), o.stage1Resp = .ok content →
        navigate_taxonomy paths flags o productInfo = ([[falseSentinel]], 0)) := by
  constructor
  · intro e h
    have hfb := stage1_error_fallback e h
    refine ⟨hfb, ?_⟩
    rw [hfb]
    cases hl : l1Categories paths flags with
    | nil => exact absurd hl h
    | cons x xs => simp
  · intro content hinv
    have h1 := stage1_ok_all_invalid hinv
    refine ⟨h1, ?_⟩
    intro o productInfo ho
    simp [navigate_taxonomy, ho, h1]

/-- C2 witness: the fallback on a raised call and the empty result on a
successful-but-invalid call, at a concrete one-L1 taxonomy. -/
theorem C2_witness :
    stage1_l1_selection ["Electronics".toList] [true] (.error .transport) =
      (l1Categories ["Electronics".toList] [true]).take 2 ∧
    stage1_l1_selection ["Electronics".toList] [true] (.ok "Garbage".toList) = [] :=
  ⟨((C2_stage1_fallback_semantics ["Electronics".toList] [true]).1 .transport
      (by decide)).1,
   ((C2_stage1_fallback_semantics ["Electronics".toList] [true]).2 "Garbage".toList
      (by decide)).1⟩

/-- C3 counterexample: in a taxonomy containing the single-segment leaf
category `"False"`, a fully successful classification run resolving that leaf
returns exactly `([["False"]], 0)` — the very failure sentinel — so the
sentinel is *not* distinguishable from a successful result for every taxonomy
file. -/
theorem C3_counterexample :
    navigate_taxonomy ["False".toList] [true]
      ⟨.ok "s".toList, .ok "False".toList, [.ok "1".toList], [], .ok "1".toList⟩
      "p".toList = ([[falseSentinel]], 0) ∧
    "False".toList ∈ leafPaths ["False".toList] [true] ∧
    fullPathsForLeaf ["False".toList] [true] "False".toList = [["False".toList]] := by
  exact ⟨by decide, by decide, by decide⟩

/-- C3 (amended): the failure sentinel is distinguishable from every successful
result *provided* no leaf-marked path of the taxonomy splits to the single
segment `"False"`: under that assumption every pipeline result either is the
sentinel pair or is the split of a real leaf path and differs from the
sentinel. -/
theorem C3_sentinel_distinguishable (paths : List PyStr) (flags : List Bool)
    (o : Oracle) (productInfo : PyStr)
    (h : ∀ p ∈ leafPaths paths flags, pySplitSep p ≠ [falseSentinel]) :
    navigate_taxonomy paths flags o productInfo = ([[falseSentinel]], 0) ∨
    (∃ p ∈ leafPaths paths flags,
      navigate_taxonomy paths flags o productInfo = ([pySplitSep p], 0) ∧
      (navigate_taxonomy paths flags o productInfo).1 ≠ [[falseSentinel]]) := by
  rcases navigate_shape paths flags o productInfo with hs | ⟨p, hp, hres⟩
  · exact Or.inl hs
  · right
    refine ⟨p, hp, hres, ?_⟩
    rw [hres]
    intro hx
    exact h p hp (by simpa using hx)

/-- C3 witness: the amended distinguishability at a taxonomy without a
`"False"` category. -/
theorem C3_witness :
    navigate_taxonomy ["Electronics".toList] [true]
      ⟨.error .transport, .error .transport, [], [], .error .transport⟩
      "p".toList = ([[falseSentinel]], 0) ∨
    (∃ p ∈ leafPaths ["Electronics".toList] [true],
      navigate_taxonomy ["Electronics".toList] [true]
        ⟨.error .transport, .error .transport, [], [], .error .transport⟩
        "p".toList = ([pySplitSep p], 0) ∧
      (navigate_taxonomy ["Electronics".toList] [true]
        ⟨.error .transport, .error .transport, [], [], .error .transport⟩
        "p".toList).1 ≠ [[falseSentinel]]) :=
  C3_sentinel_distinguishable ["Electronics".toList] [true]
    ⟨.error .transport, .error .transport, [], [], .error .transport⟩
    "p".toList (by decide)

/-- C4 counterexample: a taxonomy file that is empty after the header line is
*successfully* parsed into an empty index — the builder raises nothing, no
`MalformedTaxonomyError` exists anywhere in the code. -/
theorem C4_counterexample :
    buildTaxonomy (some ["Category Header".toList]) = .ok ([], []) := rfl

/-- C4 (amended): the index builder fails only for a *missing* file
(re-raising `FileNotFoundError`); a file that is empty (or all-blank) after the
header line successfully constructs an index with no paths. -/
theorem C4_build_failure_modes :
    buildTaxonomy none = .error .fileNotFound ∧
    ∀ lines : List PyStr, (∀ l ∈ lines.drop 1, pyStrip l = []) →
      buildTaxonomy (some lines) = .ok ([], []) := by
  refine ⟨rfl, ?_⟩
  intro lines h
  simp only [buildTaxonomy, build_taxonomy_tree]
  rw [buildAux_all_blank h]

/-- C4 witness: the amended behaviour at a file whose only post-header line is
blank. -/
theorem C4_witness :
    buildTaxonomy (some ["Category Header".toList, "   ".toList]) = .ok ([], []) :=
  C4_build_failure_modes.2 ["Category Header".toList, "   ".toList] (by decide)

/-- C5 counterexample: the response `"0"` (and likewise `"7"` with only 3
candidates) is *not* treated as "no valid selection": after the range check
rejects the value, the function falls through to the lenient default and
returns index 0, i.e. the first candidate — the response is mapped to a
candidate index after all. -/
theorem C5_counterexample :
    parse_and_validate_number "0".toList 3 = 0 ∧
    parse_and_validate_number "7".toList 3 = 0 := by
  exact ⟨by decide, by decide⟩

/-- C5 (amended): `"1"` maps to index 0 and `"Option 2"` to index 1; `"0"` and
any number greater than the candidate count — every response that cleans to a
bare numeral whose value is 0 or exceeds `maxOptions` — is rejected by the
range check (never clamped to a nearby valid value), but the function then
falls through to the lenient default and returns index 0 (the first candidate)
rather than signalling "no valid selection". -/
theorem C5_numeric_parsing (content : PyStr) (maxOptions : Nat) :
    (1 ≤ maxOptions → parse_and_validate_number "1".toList maxOptions = 0) ∧
    (2 ≤ maxOptions → parse_and_validate_number "Option 2".toList maxOptions = 1) ∧
    (pyCleaned content ≠ [] → (∀ c ∈ pyCleaned content, c.isDigit = true) →
      ¬(1 ≤ natOfDigits (pyCleaned content) ∧
        natOfDigits (pyCleaned content) ≤ maxOptions) →
      parse_and_validate_number content maxOptions = 0) := by
  refine ⟨?_, ?_, fun hne hdig hout => parse_all_digits_out_of_range hne hdig hout⟩
  · intro hmax
    have h : (digitRuns (pyCleaned "1".toList)).map natOfDigits = [1] := by decide
    rw [parse_of_digitRuns_head h, if_pos ⟨le_refl 1, hmax⟩]
    decide
  · intro hmax
    have h : (digitRuns (pyCleaned "Option 2".toList)).map natOfDigits = [2] := by decide
    rw [parse_of_digitRuns_head h, if_pos ⟨by omega, hmax⟩]
    decide

/-- C5 witness: the accepted numeric formats, and the out-of-range responses
`"0"` and `"100"`, at 3 candidates. -/
theorem C5_witness :
    parse_and_validate_number "1".toList 3 = 0 ∧
    parse_and_validate_number "Option 2".toList 3 = 1 ∧
    parse_and_validate_number "0".toList 3 = 0 ∧
    parse_and_validate_number "100".toList 3 = 0 :=
  ⟨(C5_numeric_parsing "1".toList 3).1 (by omega),
   (C5_numeric_parsing "1".toList 3).2.1 (by omega),
   (C5_numeric_parsing "0".toList 3).2.2 (by decide) (by decide) (by decide),
   (C5_numeric_parsing "100".toList 3).2.2 (by decide) (by decide) (by decide)⟩

/-- C6 counterexample: the response line `"electronics"` matches the canonical
L1 `"Electronics"` case-insensitively, yet Stage 1 drops it entirely and
returns no category: the validation of response lines is case-*sensitive*
exact matching, and neither the case-insensitive nor the substring fallback of
`_validate_categories` is ever reached by a non-exact line. -/
theorem C6_counterexample :
    pyLower "electronics".toList = pyLower "Electronics".toList ∧
    stage1_l1_selection ["Electronics".toList] [true] (.ok "electronics".toList) = [] := by
  exact ⟨by decide, by decide⟩

/-- C6 (amended): Stage 1 validates each response line by case-sensitive exact
membership in the canonical L1 list, and *every* non-exact line is dropped:
the Stage-1 result is computed from the exact-matching lines alone (so in a
mixed response the case-insensitive and substring fallbacks of
`_validate_categories` never admit a non-exact line), every returned category
is an exact member of the canonical L1 list, and a response none of whose
lines is an exact member yields the empty list. -/
theorem C6_stage1_validation (paths : List PyStr) (flags : List Bool) (content : PyStr) :
    (∀ c ∈ stage1_l1_selection paths flags (.ok content), c ∈ l1Categories paths flags) ∧
    stage1_l1_selection paths flags (.ok content) =
      stage1ValidateLines (l1Categories paths flags)
        ((stage1ParsedLines content).filter
          (fun line => decide (line ∈ l1Categories paths flags))) ∧
    ((∀ line ∈ stage1ParsedLines content, line ∉ l1Categories paths flags) →
      stage1_l1_selection paths flags (.ok content) = []) :=
  ⟨fun _ hc => mem_stage1_ok_subset hc,
   stage1_ok_eq_validate_exact paths flags content,
   stage1_ok_all_invalid⟩

/-- C6 witness: an exact line is kept and is canonical; in the mixed response
`"Electronics\nAPPAREL"` the case-insensitively matching line contributes
nothing (the result is that of the exact lines alone); a response whose only
line matches just case-insensitively and by substring containment yields the
empty list. -/
theorem C6_witness :
    "Electronics".toList ∈
      l1Categories ["Electronics > TVs".toList, "Apparel > Shoes".toList] [true, true] ∧
    stage1_l1_selection ["Electronics > TVs".toList, "Apparel > Shoes".toList]
      [true, true] (.ok "Electronics\nAPPAREL".toList) =
      stage1ValidateLines
        (l1Categories ["Electronics > TVs".toList, "Apparel > Shoes".toList] [true, true])
        ((stage1ParsedLines "Electronics\nAPPAREL".toList).filter
          (fun line => decide (line ∈
            l1Categories ["Electronics > TVs".toList, "Apparel > Shoes".toList]
              [true, true]))) ∧
    stage1_l1_selection ["Electronics".toList] [true]
      (.ok "electronics and more".toList) = [] :=
  ⟨(C6_stage1_validation ["Electronics > TVs".toList, "Apparel > Shoes".toList]
      [true, true] "Electronics".toList).1 "Electronics".toList (by decide),
   (C6_stage1_validation ["Electronics > TVs".toList, "Apparel > Shoes".toList]
      [true, true] "Electronics\nAPPAREL".toList).2.1,
   (C6_stage1_validation ["Electronics".toList] [true]
      "electronics and more".toList).2.2 (by decide)⟩

/-- C7: a trimmed lowercase Stage-3 response among the explicit non-answer
tokens (empty, "none", "error", "false", "n/a", "unknown") is a hard parse
failure (`-1`) and, when Stage 3 is actually consulted (at least two merged
candidates), makes the pipeline return the failure sentinel; any other
unparseable response (non-empty, no digits, not a known non-answer) defaults
to index 0, the first candidate, instead of failing. -/
theorem C7_stage3_hard_failure_vs_default (content : PyStr) (maxOptions : Nat) :
    (pyCleaned content ∈ specHardTokens →
      parse_and_validate_number content maxOptions = -1) ∧
    (pyCleaned content ≠ [] → (∀ c ∈ pyCleaned content, c.isDigit = false) →
      pyCleaned content ∉ meaninglessResponses →
      parse_and_validate_number content maxOptions = 0) ∧
    (∀ (paths : List PyStr) (flags : List Bool) (o : Oracle) (productInfo : PyStr),
      2 ≤ (stage2merged paths flags o).length → o.stage3Resp = .ok content →
      pyCleaned content ∈ specHardTokens →
      navigate_taxonomy paths flags o productInfo = ([[falseSentinel]], 0)) := by
  refine ⟨parse_hard_token, parse_no_digits, ?_⟩
  intro paths flags o productInfo hlen hresp htok
  have hL1ne : ¬(stage1_l1_selection paths flags o.stage1Resp).isEmpty = true := by
    intro hnil
    rw [List.isEmpty_iff] at hnil
    rw [stage2merged_nil_of_stage1_nil hnil] at hlen
    simp at hlen
  have hstage3 : stage3_final_selection (stage2merged paths flags o) o.stage3Resp = -1 := by
    rw [hresp]
    exact stage3_hard_token hlen htok
  simp only [navigate_taxonomy]
  rw [if_neg hL1ne,
    if_neg (by rw [List.isEmpty_iff]; intro hnil; rw [hnil] at hlen; simp at hlen),
    if_neg (by omega), hstage3, if_pos (by norm_num)]

/-- C7 witness: "none" hard-fails, "hello" defaults to the first candidate,
and a full two-candidate pipeline run with Stage-3 response "none" returns the
sentinel. -/
theorem C7_witness :
    parse_and_validate_number "none".toList 3 = -1 ∧
    parse_and_validate_number "hello".toList 3 = 0 ∧
    navigate_taxonomy ["A > X".toList, "A > Y".toList] [true, true]
      ⟨.ok "s".toList, .ok "A".toList, [.ok ['1', '\n', '2']], [], .ok "none".toList⟩
      "p".toList = ([[falseSentinel]], 0) :=
  ⟨(C7_stage3_hard_failure_vs_default "none".toList 3).1 (by decide),
   (C7_stage3_hard_failure_vs_default "hello".toList 3).2.1 (by decide) (by decide)
     (by decide),
   (C7_stage3_hard_failure_vs_default "none".toList 3).2.2
     ["A > X".toList, "A > Y".toList] [true, true]
     ⟨.ok "s".toList, .ok "A".toList, [.ok ['1', '\n', '2']], [], .ok "none".toList⟩
     "p".toList (by decide) rfl (by decide)⟩

/-- C8: resolving a chosen leaf name to its full path matches on exact
equality of the final segment: every returned path ends exactly in the leaf
name, so looking up "Shoes" can never return a path whose final segment is
"Running Shoes", and concretely the path "Apparel > Running Shoes" is not
matched by the leaf name "Shoes" even though it ends with that text. -/
theorem C8_leaf_resolution_exact (paths : List PyStr) (flags : List Bool)
    (selectedLeaf : PyStr) :
    (∀ parts ∈ fullPathsForLeaf paths flags selectedLeaf,
      parts.getLastD [] = selectedLeaf) ∧
    (∀ parts ∈ fullPathsForLeaf paths flags "Shoes".toList,
      parts.getLastD [] ≠ "Running Shoes".toList) ∧
    fullPathsForLeaf ["Apparel > Running Shoes".toList] [true] "Shoes".toList = [] := by
  refine ⟨?_, ?_, by decide⟩
  · intro parts hp
    obtain ⟨p, -, -, hlast⟩ := mem_fullPathsForLeaf hp
    exact hlast
  · intro parts hp
    obtain ⟨p, -, -, hlast⟩ := mem_fullPathsForLeaf hp
    rw [hlast]
    decide

/-- C8 witness: the resolution of "Shoes" against "Apparel > Shoes". -/
theorem C8_witness :
    (["Apparel".toList, "Shoes".toList] : List PyStr).getLastD [] = "Shoes".toList :=
  (C8_leaf_resolution_exact ["Apparel > Shoes".toList] [true] "Shoes".toList).1
    ["Apparel".toList, "Shoes".toList] (by decide)

/-- C9: the merged Stage-2 candidate list handed to Stage 3 contains no
duplicate leaf names and preserves encounter order: it is exactly branch 2A's
list followed by branch 2B's list (2B excluding 2A's leaves), each branch's
list being the first-occurrence deduplication of its accumulated selections —
a subsequence of the selection order containing exactly the selected values —
and batch splitting is a partition of the candidate list in order. -/
theorem C9_stage2_merge (paths : List PyStr) (flags : List Bool) (o : Oracle) :
    (stage2merged paths flags o).Nodup ∧
    stage2merged paths flags o =
      stage2a_first_leaf_selection paths flags
        (stage1_l1_selection paths flags o.stage1Resp) o.stage2aResps ++
      (if 2 ≤ (stage1_l1_selection paths flags o.stage1Resp).length then
        stage2b_second_leaf_selection paths flags
          (stage1_l1_selection paths flags o.stage1Resp)
          (stage2a_first_leaf_selection paths flags
            (stage1_l1_selection paths flags o.stage1Resp) o.stage2aResps)
          o.stage2bResps
      else []) ∧
    (∀ xs : List PyStr, (dedupFirst xs).Sublist xs ∧ (dedupFirst xs).Nodup ∧
      ∀ a : PyStr, a ∈ dedupFirst xs ↔ a ∈ xs) ∧
    (∀ fl : List PyStr, (batchChunks fl).flatten = fl) := by
  refine ⟨stage2merged_nodup _ _ _, rfl, ?_, batchChunks_flatten⟩
  intro xs
  exact ⟨dedupFirst_sublist xs, dedupFirst_nodup xs, fun _ => mem_dedupFirst⟩

/-- C10: for every taxonomy, product description, and gateway behaviour
(including exceptions at any call site), `navigate_taxonomy` is total (never
propagates an exception) and returns a pair whose second component is 0 and
whose first component is a single path: either the split of a leaf-marked
taxonomy path or the sentinel path `["False"]`. -/
theorem C10_navigate_total_shape (paths : List PyStr) (flags : List Bool)
    (o : Oracle) (productInfo : PyStr) :
    (navigate_taxonomy paths flags o productInfo).2 = 0 ∧
    (navigate_taxonomy paths flags o productInfo).1.length = 1 ∧
    ((navigate_taxonomy paths flags o productInfo).1 = [[falseSentinel]] ∨
      ∃ p ∈ leafPaths paths flags,
        (navigate_taxonomy paths flags o productInfo).1 = [pySplitSep p]) := by
  rcases navigate_shape paths flags o productInfo with h | ⟨p, hp, h⟩
  · rw [h]
    exact ⟨rfl, rfl, Or.inl rfl⟩
  · rw [h]
    exact ⟨rfl, rfl, Or.inr ⟨p, hp, rfl⟩⟩

end TaxonomyNavigator
